import Mathlib

/-!
Shallow embedding of the critter-cam detection engine
(`bird_watch.py`, `birds.py`, `critter-cam-ir.py`, `critter-vid-ir.py`).

A frame / diff map is a rectangular grid of RGB triples of non-negative
integers (numpy `int_` arrays of shape (rows, cols, 3), or in `birds.py`
a flat list of RGB tuples).  Machine integers on the Pi are 64-bit but
pixel intensities are bounded by 255 and counts by the pixel count, so
no overflow is reachable and we use `ℕ` directly.
-/

namespace CritterCam

/-- One RGB triple, the innermost axis of the numpy arrays and one element
of the `birds.py` pixel list. -/
structure Px where
  r : ℕ
  g : ℕ
  b : ℕ
deriving DecidableEq, Repr

/-- A decoded image / diff array: a list of rows, each row a list of RGB
triples (numpy shape (rows, cols, 3)). -/
abbrev Frame := List (List Px)

/-- Per-pixel absolute difference `abs(x - y)` of two RGB triples
(the elementwise `abs(array2 - array1)` over signed integers). -/
def pxAbsDiff (p q : Px) : Px :=
  ⟨Nat.dist p.r q.r, Nat.dist p.g q.g, Nat.dist p.b q.b⟩

/-- `calculate_diffs(array1, array2)` of `bird_watch.py` (lines 75-82) and
`critter-vid-ir.py` (lines 87-94): elementwise `abs(array2 - array1)` on
same-shaped arrays.  (On equal shapes numpy subtraction is elementwise,
which `zipWith` reproduces exactly.) -/
def calculate_diffs (array1 array2 : Frame) : Frame :=
  List.zipWith (List.zipWith (fun x y => pxAbsDiff y x)) array1 array2

/-- `subtract_pics(pic1, pic2)` of `birds.py` (lines 47-59): pics are flat
lists of RGB tuples; `zip` pairs corresponding pixels and, like Python's
`zip`, stops at the shorter list. -/
def subtract_pics (pic1 pic2 : List Px) : List Px :=
  List.zipWith pxAbsDiff pic1 pic2

/-- Sum of the three channel values of one pixel (the per-pixel
`npsum(..., axis=2)` / `npsum(..., axis=1)` reductions). -/
def pxSum (p : Px) : ℕ := p.r + p.g + p.b

/-- numpy `sign` restricted to the non-negative integers that occur here:
`0` for `0`, `1` for positive. -/
def nsign (x : ℕ) : ℕ := min x 1

/-- The `npsum(rgb_diff, axis=2)` step of `bird_watch.count_pixels`
(line 53): collapse each RGB triple to its channel sum, keeping the 2-D
grid shape. -/
def sumAxis2 (d : Frame) : List (List ℕ) :=
  d.map (fun row => row.map pxSum)

/-- `count_pixels(rgb_diff)` of `bird_watch.py` (lines 45-60), with the
global `THRESHOLD` passed explicitly (spec maps the module constants to
`CycleConfig`): sum channels per pixel, then
`npsum(sign(diffs // THRESHOLD))`.  numpy integer floor division by zero
yields 0 (with a RuntimeWarning, no exception), exactly as `Nat.div` by
zero does. -/
def count_pixels_static (t : ℕ) (d : Frame) : ℕ :=
  (((sumAxis2 d).map (fun row => row.map (fun s => nsign (s / t)))).map List.sum).sum

/-- Channel `c` value of a pixel (`flat_diffs[:, c]`). -/
def pch (p : Px) (c : Fin 3) : ℕ :=
  if c.val = 0 then p.r else if c.val = 1 then p.g else p.b

/-- The column of channel-`c` values of a flat pixel list
(`flat_diffs[:, c]` of the reshaped `(-1, 3)` array). -/
def chVals (l : List Px) (c : Fin 3) : List ℕ := l.map (fun p => pch p c)

/-- Sum of squares of a list of naturals. -/
def sumSq (v : List ℕ) : ℕ := (v.map (fun x => x * x)).sum

/-- The `std_devs = int_(std(flat_diffs, axis=0))` step of
`critter-vid-ir.count_pixels` (line 52).  numpy `std` (ddof = 0) is the
population standard deviation `sqrt(mean(x^2) - mean(x)^2)
= sqrt((N*Σx² - (Σx)²) / N²)`, and `int_` truncates the non-negative
result toward zero, i.e. takes its floor.  For a real `q ≥ 0`,
`⌊sqrt q⌋ = Nat.sqrt ⌊q⌋` (an integer `n` satisfies `n ≤ sqrt q` iff
`n² ≤ q` iff `n² ≤ ⌊q⌋`), and `⌊(N*Σx² - (Σx)²) / N²⌋` is the natural
floor division below (the numerator is non-negative by Cauchy-Schwarz,
proved in `sq_sum_le_length_mul_sumSq`).  So this definition computes
`int_(std(flat_diffs, axis=0))[c]` exactly. -/
def noiseVec (l : List Px) (c : Fin 3) : ℕ :=
  Nat.sqrt ((l.length * sumSq (chVals l c) - (chVals l c).sum ^ 2) / l.length ^ 2)

/-- The `(flat_diffs - std_devs).clip(min=0)` step (line 56): subtract the
per-channel noise estimate from each channel, clamping at zero — exactly
truncated subtraction on `ℕ`. -/
def subPx (ν : Fin 3 → ℕ) (p : Px) : Px :=
  ⟨p.r - ν 0, p.g - ν 1, p.b - ν 2⟩

/-- `count_pixels(rgb_diff)` of `critter-vid-ir.py` (lines 36-72), threshold
explicit: reshape to a flat pixel list (`reshape(rgb_diff, (-1,3))`, i.e.
row-major flattening), estimate per-channel noise, subtract and clip,
sum channels per pixel (`npsum(flat_diffs, axis=1)`), then
`npsum(sign(diffs // THRESHOLD))`. -/
def count_pixels_adaptive (t : ℕ) (d : Frame) : ℕ :=
  let flat := d.flatten
  let ν := noiseVec flat
  ((flat.map (subPx ν)).map (fun p => nsign (pxSum p / t))).sum

/-- `count_pixels(rgb)` of `birds.py` (lines 67-73): count pixels whose
channel sum is strictly positive. -/
def count_pixels_birds (rgb : List Px) : ℕ :=
  rgb.countP (fun p => decide (0 < pxSum p))

/-- The detection decision applied to a changed-pixel count in
`birds.has_object` (lines 75-84) and in both main loops
(`count_pixels(diff) > BIRD_SIZE` / `> CRITTER_SIZE`): strictly greater
than the configured object size. -/
def decideDetect (n size : ℕ) : Bool := decide (size < n)

/-- `has_object(rgb)` of `birds.py` (lines 75-84), `BIRD_SIZE` explicit. -/
def has_object (size : ℕ) (rgb : List Px) : Bool :=
  decide (size < count_pixels_birds rgb)

/-! Spec-side definitions, written from the specification's words so the
code-derived definitions above can be compared against them. -/

/-- Mean of a list of channel values, as an exact rational. -/
def meanQ (v : List ℕ) : ℚ := (v.sum : ℚ) / v.length

/-- Population variance of a list of channel values: the mean squared
deviation from the mean.  The spec's per-channel "standard deviation of
the difference values ... over all pixels" is `Real.sqrt` of this. -/
def varQ (v : List ℕ) : ℚ :=
  ((v.map (fun x : ℕ => ((x : ℚ) - meanQ v) ^ 2)).sum) / v.length

/-- Clamp a rational at zero ("clamping negative results to zero"). -/
def qclamp (x : ℚ) : ℚ := max x 0

/-- Per-pixel sum of the three channel differences after subtracting an
arbitrary (possibly non-integer) per-channel noise profile and clamping
negatives to zero — the spec's description of the adaptive pipeline with
the NoiseProfile left as a parameter. -/
def pxSumSubQ (ν : Fin 3 → ℚ) (p : Px) : ℚ :=
  qclamp ((p.r : ℚ) - ν 0) + qclamp ((p.g : ℚ) - ν 1) + qclamp ((p.b : ℚ) - ν 2)

/-- Count of pixels whose noise-subtracted channel sum is `≥ threshold`,
for a rational noise profile `ν` — the claim's reading of adaptive
`classify` with the NoiseProfile `ν` substituted. -/
def countWithNoiseQ (ν : Fin 3 → ℚ) (t : ℚ) (l : List Px) : ℕ :=
  l.countP (fun p => decide (t ≤ pxSumSubQ ν p))

/-- Number of pixels of a DiffMap whose channel sum is nonzero (the
population the spec says a threshold of 0 counts). -/
def nonzeroSumCount (d : Frame) : ℕ :=
  d.flatten.countP (fun p => decide (0 < pxSum p))

/-! Controller-loop embedding.  The spec's CaptureController is the
`while True` loop of the main functions; frame acquisition, the image
files and the output sink are the external collaborators, modelled as
explicit parameters. -/

/-- Errors that can escape one loop iteration. -/
inductive RunError where
  | writeFailure
deriving DecidableEq, Repr

/-- Outcome of the external `filecopy` call (the OutputSink write). -/
inductive SaveOutcome where
  | ok
  | failed
deriving DecidableEq, Repr

/-- One iteration of the `bird_watch.py` main loop (lines 108-128), after
`array2` has been decoded, with the outcome of the `filecopy` write as an
oracle.  The loop body compares, copies the image when detection fires,
and ends with the `previous <- current` bookkeeping (`rename` +
`array1 = array2`), returning the next `previous` frame.  There is no
handler between `filecopy` and the `except KeyboardInterrupt` at the top
level, so an I/O error raised by `filecopy` propagates and ends the run:
the iteration produces `Except.error .writeFailure` and never reaches the
bookkeeping. -/
def bird_loop_body (t size : ℕ) (prev cur : Frame) (save : SaveOutcome) :
    Except RunError Frame :=
  if size < count_pixels_static t (calculate_diffs prev cur) then
    match save with
    | .ok => .ok cur
    | .failed => .error .writeFailure
  else .ok cur

/-- State carried across iterations of the `critter-vid-ir.py` main loop:
a logical clock that advances at each camera capture and during the
blocking video recording, the current contents of the `image2.jpg` temp
file, and the in-memory `array1` (previous frame). -/
structure VidState where
  clock : ℕ
  file2 : Frame
  prev : Frame
deriving DecidableEq, Repr

/-- One iteration of the `critter-vid-ir.py` main loop (lines 120-145).
`cam i` is the frame the camera delivers if a capture happens at instant
`i`; `dur` is `VIDEO_TIME`.  `camera.capture(TEMPFILE2)` writes `cam clock`
to the temp file and advances the clock; `get_pic(TEMPFILE2)` reads the
file without advancing anything.  When detection fires the code records
video for `dur` (clock advances), then executes `array2 =
get_pic(TEMPFILE2)` — a re-read of the same temp file, with no new
`camera.capture` — and the bookkeeping `array1 = array2` follows. -/
def vid_loop_body (cam : ℕ → Frame) (t size dur : ℕ) (s : VidState) : VidState :=
  let file2 := cam s.clock
  let clock1 := s.clock + 1
  let array2 := file2
  let diff := calculate_diffs s.prev array2
  if size < count_pixels_adaptive t diff then
    let clock2 := clock1 + dur
    let array2' := file2
    { clock := clock2, file2 := file2, prev := array2' }
  else
    { clock := clock1, file2 := file2, prev := array2 }

/-! Concrete inputs used by counterexamples and witnesses. -/

/-- A 1-row, 2-pixel DiffMap whose red-channel values are 0 and 3: the
red-channel population standard deviation is exactly 3/2. -/
def exD : Frame := [[⟨0, 0, 0⟩, ⟨3, 0, 0⟩]]

/-- The exact per-channel standard deviation of `exD`: 3/2 on red, 0 on
green and blue. -/
def exNu (c : Fin 3) : ℚ := if c.val = 0 then 3 / 2 else 0

/-! Helper lemmas. -/

theorem nsign_le_one (x : ℕ) : nsign x ≤ 1 := min_le_right x 1

theorem nsign_div_eq {t : ℕ} (ht : 0 < t) (s : ℕ) :
    nsign (s / t) = if t ≤ s then 1 else 0 := by
  unfold nsign
  by_cases h : t ≤ s
  · rw [if_pos h, min_eq_right ((Nat.one_le_div_iff ht).mpr h)]
  · rw [if_neg h, Nat.div_eq_of_lt (Nat.lt_of_not_le h)]
    simp

theorem count_pixels_static_flat (t : ℕ) (d : Frame) :
    count_pixels_static t d = (d.flatten.map (fun p => nsign (pxSum p / t))).sum := by
  induction d with
  | nil => rfl
  | cons row rest ih =>
    simp only [count_pixels_static, sumAxis2, List.map_cons, List.sum_cons,
      List.flatten_cons, List.map_append, List.sum_append, List.map_map] at *
    rw [ih]
    rfl

theorem sum_nsign_eq_countP {t : ℕ} (ht : 0 < t) (f : Px → ℕ) (l : List Px) :
    (l.map (fun p => nsign (f p / t))).sum = l.countP (fun p => decide (t ≤ f p)) := by
  induction l with
  | nil => rfl
  | cons p l ih =>
    rw [List.map_cons, List.sum_cons, ih, List.countP_cons, nsign_div_eq ht (f p)]
    by_cases h : t ≤ f p <;> simp [h, Nat.add_comm]

theorem pxSum_subPx_le (ν : Fin 3 → ℕ) (p : Px) : pxSum (subPx ν p) ≤ pxSum p := by
  cases p
  simp only [pxSum, subPx]
  omega

theorem flatten_length_of_rect (d : Frame) (C : ℕ) (hC : ∀ row ∈ d, row.length = C) :
    d.flatten.length = d.length * C := by
  induction d with
  | nil => simp
  | cons row rest ih =>
    have hr : row.length = C := hC row (by simp)
    have hrest := ih (fun r hr => hC r (by simp [hr]))
    simp only [List.flatten_cons, List.length_append, List.length_cons, hr, hrest]
    ring

theorem two_mul_sum_le (x : ℕ) (v : List ℕ) :
    2 * x * v.sum ≤ v.length * (x * x) + sumSq v := by
  induction v with
  | nil => simp [sumSq]
  | cons y v ih =>
    have h2 : 2 * x * y ≤ x * x + y * y := by
      zify
      nlinarith [sq_nonneg ((x : ℤ) - (y : ℤ))]
    simp only [List.sum_cons, List.length_cons, sumSq, List.map_cons] at *
    nlinarith [ih, h2]

theorem sq_sum_le_length_mul_sumSq (v : List ℕ) :
    v.sum ^ 2 ≤ v.length * sumSq v := by
  induction v with
  | nil => simp
  | cons x v ih =>
    have h := two_mul_sum_le x v
    simp only [List.sum_cons, List.length_cons, sumSq, List.map_cons] at *
    nlinarith [ih, h]

theorem sum_sq_dev (v : List ℕ) (a : ℚ) :
    (v.map (fun x : ℕ => ((x : ℚ) - a) ^ 2)).sum
      = (v.map (fun x : ℕ => ((x : ℚ)) ^ 2)).sum
          - 2 * a * (v.map (fun x : ℕ => ((x : ℚ)))).sum + v.length * a ^ 2 := by
  induction v with
  | nil => simp
  | cons x v ih =>
    simp only [List.map_cons, List.sum_cons, List.length_cons, ih]
    push_cast
    ring

theorem cast_sum_eq (v : List ℕ) :
    (v.map (fun x : ℕ => ((x : ℚ)))).sum = (v.sum : ℚ) := by
  induction v with
  | nil => simp
  | cons x v ih =>
    simp only [List.map_cons, List.sum_cons, ih]
    push_cast
    ring

theorem cast_sumSq_eq (v : List ℕ) :
    (v.map (fun x : ℕ => ((x : ℚ)) ^ 2)).sum = (sumSq v : ℚ) := by
  induction v with
  | nil => simp [sumSq]
  | cons x v ih =>
    simp only [List.map_cons, List.sum_cons, ih, sumSq]
    push_cast
    ring

/-- The population variance equals `(N*Σx² - (Σx)²) / N²`, with the
numerator computed by truncated `ℕ` subtraction (exact by
Cauchy-Schwarz). -/
theorem varQ_eq (v : List ℕ) (hv : v ≠ []) :
    varQ v = ((v.length * sumSq v - v.sum ^ 2 : ℕ) : ℚ) / ((v.length : ℚ)) ^ 2 := by
  have hN : (v.length : ℚ) ≠ 0 := by
    exact_mod_cast (List.length_pos.mpr hv).ne'
  have hcs := sq_sum_le_length_mul_sumSq v
  unfold varQ meanQ
  rw [sum_sq_dev, cast_sum_eq, cast_sumSq_eq, Nat.cast_sub hcs]
  push_cast
  field_simp
  ring

theorem chVals_length (l : List Px) (c : Fin 3) :
    (chVals l c).length = l.length := List.length_map l _

/-- The code's per-channel noise estimate is exactly the floor of the
population standard deviation of that channel: its square is at most the
variance and the square of its successor exceeds the variance. -/
theorem noiseVec_floor_char (l : List Px) (c : Fin 3) :
    ((noiseVec l c : ℚ)) ^ 2 ≤ varQ (chVals l c)
      ∧ varQ (chVals l c) < ((noiseVec l c : ℚ) + 1) ^ 2 := by
  rcases eq_or_ne l [] with rfl | hl
  · constructor
    · norm_num [noiseVec, varQ, chVals, sumSq]
    · norm_num [noiseVec, varQ, chVals, sumSq]
  · have hv : chVals l c ≠ [] := by
      simpa [chVals] using hl
    have hNpos : 0 < l.length := List.length_pos.mpr hl
    set v := chVals l c with hvdef
    set a := l.length * sumSq v - v.sum ^ 2 with hadef
    set k := l.length ^ 2 with hkdef
    have hkpos : 0 < k := pow_pos hNpos 2
    have hkQ : (0 : ℚ) < (k : ℚ) := by exact_mod_cast hkpos
    set m := a / k with hmdef
    have hvar : varQ v = (a : ℚ) / (k : ℚ) := by
      rw [varQ_eq v hv, hvdef, chVals_length l c]
      rfl
    have hnoise : noiseVec l c = Nat.sqrt m := by
      simp [noiseVec, hmdef, hadef, hkdef, hvdef]
    constructor
    · have h1 : (Nat.sqrt m) ^ 2 ≤ m := Nat.sqrt_le' m
      have h2 : ((m : ℚ)) ≤ (a : ℚ) / (k : ℚ) := by
        simpa [hmdef] using (Nat.cast_div_le (α := ℚ) (m := a) (n := k))
      have h3 : (((Nat.sqrt m) ^ 2 : ℕ) : ℚ) ≤ (m : ℚ) := by exact_mod_cast h1
      rw [hnoise, hvar]
      calc ((Nat.sqrt m : ℚ)) ^ 2 = (((Nat.sqrt m) ^ 2 : ℕ) : ℚ) := by push_cast; ring
        _ ≤ (m : ℚ) := h3
        _ ≤ (a : ℚ) / (k : ℚ) := h2
    · have h4 : a < (m + 1) * k := by
        have := Nat.lt_succ_of_le (Nat.le_refl m)
        exact (Nat.div_lt_iff_lt_mul hkpos).mp this
      have h5 : (a : ℚ) / (k : ℚ) < ((m : ℚ) + 1) := by
        rw [div_lt_iff₀ hkQ]
        exact_mod_cast h4
      have h6 : m + 1 ≤ (Nat.sqrt m + 1) * (Nat.sqrt m + 1) :=
        Nat.lt_succ_sqrt m
      have h7 : ((m : ℚ) + 1) ≤ ((Nat.sqrt m : ℚ) + 1) ^ 2 := by
        have : ((m + 1 : ℕ) : ℚ) ≤ (((Nat.sqrt m + 1) * (Nat.sqrt m + 1) : ℕ) : ℚ) := by
          exact_mod_cast h6
        push_cast at this
        nlinarith [this]
      rw [hnoise, hvar]
      exact lt_of_lt_of_le h5 h7

/-- Zero per-channel variance forces a zero noise estimate. -/
theorem noiseVec_eq_zero_of_varQ_eq_zero (l : List Px) (c : Fin 3)
    (h : varQ (chVals l c) = 0) : noiseVec l c = 0 := by
  rcases eq_or_ne l [] with rfl | hl
  · simp [noiseVec, chVals, sumSq]
  · have hv : chVals l c ≠ [] := by simpa [chVals] using hl
    have hNpos : 0 < l.length := List.length_pos.mpr hl
    rw [varQ_eq (chVals l c) hv, chVals_length l c] at h
    have hkQ : ((l.length : ℚ)) ^ 2 ≠ 0 := by
      have : (l.length : ℚ) ≠ 0 := by exact_mod_cast hNpos.ne'
      positivity
    have hnum : ((l.length * sumSq (chVals l c) - (chVals l c).sum ^ 2 : ℕ) : ℚ) = 0 := by
      field_simp at h
      exact_mod_cast h
    have hnum' : l.length * sumSq (chVals l c) - (chVals l c).sum ^ 2 = 0 := by
      exact_mod_cast hnum
    simp [noiseVec, hnum']

/-- Evaluation rule for `Nat.sqrt` at closed inputs. -/
theorem nat_sqrt_eval {n q : ℕ} (h1 : q * q ≤ n) (h2 : n < (q + 1) * (q + 1)) :
    Nat.sqrt n = q := (Nat.eq_sqrt.mpr ⟨h1, h2⟩).symm

/-- The noise estimate of `exD`: `int_(std) = ⌊3/2⌋ = 1` on red, 0 on
green and blue. -/
theorem noiseVec_exD (c : Fin 3) :
    noiseVec exD.flatten c = if c.val = 0 then 1 else 0 := by
  fin_cases c
  · show Nat.sqrt _ = 1
    exact nat_sqrt_eval (by decide) (by decide)
  · show Nat.sqrt _ = 0
    exact nat_sqrt_eval (by decide) (by decide)
  · show Nat.sqrt _ = 0
    exact nat_sqrt_eval (by decide) (by decide)

/-! Claim theorems. -/

/-- C1 (counterexample): the claim says the NoiseProfile subtracted in
adaptive mode is the per-channel standard deviation itself.  On the
2-pixel DiffMap `exD` the red-channel standard deviation is exactly 3/2
(`exNu` is non-negative and its square is the per-channel variance), and
counting with that noise profile at threshold 2 yields 0 changed pixels;
the code (`critter-vid-ir.count_pixels`) subtracts `int_(std)` = 1 and
yields 1.  So `classify` does not implement the claimed computation. -/
theorem c1_counterexample :
    (∀ c : Fin 3, 0 ≤ exNu c ∧ exNu c ^ 2 = varQ (chVals exD.flatten c))
      ∧ count_pixels_adaptive 2 exD = 1
      ∧ countWithNoiseQ exNu 2 exD.flatten = 0 := by
  refine ⟨?_, ?_, ?_⟩
  · intro c
    fin_cases c <;> norm_num [exNu, varQ, meanQ, chVals, pch, exD, sumSq]
  · have h : noiseVec exD.flatten = fun c : Fin 3 => if c.val = 0 then 1 else 0 :=
      funext noiseVec_exD
    simp only [count_pixels_adaptive, h]
    decide
  · norm_num [countWithNoiseQ, pxSumSubQ, qclamp, exNu, exD, pch, List.countP_cons, max_def]

/-- C1 (amended): in adaptive mode with a positive threshold, classify
computes the NoiseProfile as the integer part (floor) of the per-channel
population standard deviation — its square is at most the per-channel
variance, which is below the square of its successor — subtracts it from
every pixel's per-channel difference clamping at zero, sums the three
noise-subtracted channel differences per pixel, and returns the count of
pixels whose summed value is `≥ threshold`. -/
theorem c1_adaptive_amended (d : Frame) (t : ℕ) (ht : 0 < t) :
    count_pixels_adaptive t d
        = (d.flatten.map (subPx (noiseVec d.flatten))).countP
            (fun p => decide (t ≤ pxSum p))
      ∧ ∀ c : Fin 3,
          ((noiseVec d.flatten c : ℚ)) ^ 2 ≤ varQ (chVals d.flatten c)
            ∧ varQ (chVals d.flatten c) < ((noiseVec d.flatten c : ℚ) + 1) ^ 2 := by
  constructor
  · simp only [count_pixels_adaptive]
    exact sum_nsign_eq_countP ht pxSum _
  · intro c
    exact noiseVec_floor_char d.flatten c

/-- C1 witness: the amended claim applied to `exD` at threshold 2. -/
theorem c1_adaptive_amended_witness :
    0 < 2
      ∧ (count_pixels_adaptive 2 exD
            = (exD.flatten.map (subPx (noiseVec exD.flatten))).countP
                (fun p => decide (2 ≤ pxSum p))
          ∧ ∀ c : Fin 3,
              ((noiseVec exD.flatten c : ℚ)) ^ 2 ≤ varQ (chVals exD.flatten c)
                ∧ varQ (chVals exD.flatten c) < ((noiseVec exD.flatten c : ℚ) + 1) ^ 2) :=
  ⟨by decide, c1_adaptive_amended exD 2 (by decide)⟩

/-- C6: a DiffMap whose per-channel variance (equivalently, standard
deviation) is zero gets a zero noise estimate, so adaptive classify
degrades to exactly the static count for the same DiffMap and threshold;
both sides are total functions, so no error or division by zero occurs. -/
theorem c6_zero_std_degrades (d : Frame) (t : ℕ)
    (h : ∀ c : Fin 3, varQ (chVals d.flatten c) = 0) :
    count_pixels_adaptive t d = count_pixels_static t d := by
  have hν : ∀ c, noiseVec d.flatten c = 0 := fun c =>
    noiseVec_eq_zero_of_varQ_eq_zero d.flatten c (h c)
  have hid : ∀ p : Px, subPx (noiseVec d.flatten) p = p := by
    intro p
    cases p
    simp [subPx, hν 0, hν 1, hν 2]
  have hfun : subPx (noiseVec d.flatten) = id := funext hid
  rw [count_pixels_static_flat]
  simp only [count_pixels_adaptive, hfun, List.map_id]

/-- C6 witness: a constant 1-by-2 DiffMap (zero variance on every
channel) at threshold 7. -/
theorem c6_zero_std_degrades_witness :
    (∀ c : Fin 3, varQ (chVals ([[⟨5, 5, 5⟩, ⟨5, 5, 5⟩]] : Frame).flatten c) = 0)
      ∧ count_pixels_adaptive 7 [[⟨5, 5, 5⟩, ⟨5, 5, 5⟩]]
          = count_pixels_static 7 [[⟨5, 5, 5⟩, ⟨5, 5, 5⟩]] := by
  have h : ∀ c : Fin 3, varQ (chVals ([[⟨5, 5, 5⟩, ⟨5, 5, 5⟩]] : Frame).flatten c) = 0 := by
    intro c
    fin_cases c <;> norm_num [varQ, meanQ, chVals, pch]
  exact ⟨h, c6_zero_std_degrades _ 7 h⟩

/-- C2: the detection decision `decide(changedPixelCount, config)` is true
iff the count strictly exceeds `objectSize`; a count equal to `objectSize`
yields false; and `birds.has_object` applies exactly this rule to the
count it computes. -/
theorem c2_decide_strict (n size : ℕ) :
    (decideDetect n size = true ↔ size < n)
      ∧ decideDetect size size = false
      ∧ ∀ rgb : List Px, has_object size rgb = decideDetect (count_pixels_birds rgb) size := by
  refine ⟨by simp [decideDetect], by simp [decideDetect], fun rgb => rfl⟩

/-- C3: `computeDiff(A, A)` is all-zero, both classify modes return 0 on
it, and the decision on a zero count is false for every object size. -/
theorem c3_self_diff_zero (A : Frame) (t size : ℕ) :
    (∀ p ∈ (calculate_diffs A A).flatten, p = (⟨0, 0, 0⟩ : Px))
      ∧ count_pixels_static t (calculate_diffs A A) = 0
      ∧ count_pixels_adaptive t (calculate_diffs A A) = 0
      ∧ decideDetect 0 size = false := by
  have hz : ∀ p ∈ (calculate_diffs A A).flatten, p = (⟨0, 0, 0⟩ : Px) := by
    intro p hp
    rw [List.mem_flatten] at hp
    obtain ⟨row, hrow, hp⟩ := hp
    unfold calculate_diffs at hrow
    rw [List.zipWith_same] at hrow
    rw [List.mem_map] at hrow
    obtain ⟨r0, _, hr0⟩ := hrow
    rw [← hr0, List.zipWith_same, List.mem_map] at hp
    obtain ⟨x, _, hx⟩ := hp
    cases x
    simp only [pxAbsDiff, Nat.dist_self] at hx
    exact hx.symm
  refine ⟨hz, ?_, ?_, by simp [decideDetect]⟩
  · rw [count_pixels_static_flat]
    apply List.sum_eq_zero
    intro x hx
    rw [List.mem_map] at hx
    obtain ⟨p, hp, hpx⟩ := hx
    rw [hz p hp] at hpx
    simpa [pxSum, nsign] using hpx.symm
  · unfold count_pixels_adaptive
    apply List.sum_eq_zero
    intro x hx
    rw [List.map_map, List.mem_map] at hx
    obtain ⟨p, hp, hpx⟩ := hx
    rw [hz p hp] at hpx
    cases hpx
    simp [subPx, pxSum, nsign]

/-- C4: on any DiffMap and threshold, the adaptive-mode count never
exceeds the static-mode count: noise subtraction with clamping can only
lower each pixel's summed difference. -/
theorem c4_adaptive_le_static (d : Frame) (t : ℕ) :
    count_pixels_adaptive t d ≤ count_pixels_static t d := by
  rw [count_pixels_static_flat]
  simp only [count_pixels_adaptive, List.map_map]
  apply List.sum_le_sum
  intro p _
  exact min_le_min (Nat.div_le_div_right (pxSum_subPx_le _ p)) le_rfl

/-- C5 (counterexample): the claim predicts that at threshold 0 classify
returns the number of pixels with nonzero channel sum; on the one-pixel
DiffMap `[[(100,0,0)]]` that number is 1, but `sign(sum // 0)` is 0 under
integer division by zero, so classify returns 0. -/
theorem c5_counterexample :
    count_pixels_static 0 [[⟨100, 0, 0⟩]] ≠ nonzeroSumCount [[⟨100, 0, 0⟩]] := by
  decide

/-- C5 (amended): with threshold 0 both classify modes return 0 on every
DiffMap — integer floor division by zero yields 0 (numpy emits only a
RuntimeWarning, no exception), so `sign(sum // 0)` counts no pixel. -/
theorem c5_threshold_zero (d : Frame) :
    count_pixels_static 0 d = 0 ∧ count_pixels_adaptive 0 d = 0 := by
  constructor
  · rw [count_pixels_static_flat]
    apply List.sum_eq_zero
    intro x hx
    rw [List.mem_map] at hx
    obtain ⟨p, _, hpx⟩ := hx
    simpa [nsign] using hpx.symm
  · unfold count_pixels_adaptive
    apply List.sum_eq_zero
    intro x hx
    rw [List.map_map, List.mem_map] at hx
    obtain ⟨p, _, hpx⟩ := hx
    simpa [nsign] using hpx.symm

/-- C7 (counterexample): `subtract_pics` on a 2-pixel and a 1-pixel image
does not fail: Python's `zip` silently truncates to the shorter list and
a 1-pixel DiffMap is returned. -/
theorem c7_counterexample :
    subtract_pics [⟨1, 2, 3⟩, ⟨4, 5, 6⟩] [⟨1, 1, 1⟩] = [⟨0, 1, 2⟩] := by
  decide

/-- C7 (amended): `subtract_pics` performs no shape validation; on frames
of differing length it silently truncates, returning a DiffMap of length
`min |pic1| |pic2|`. -/
theorem c7_truncation (pic1 pic2 : List Px) :
    (subtract_pics pic1 pic2).length = min pic1.length pic2.length := by
  simp [subtract_pics]

/-- C8 (counterexample): on a detecting cycle whose `filecopy` fails, the
loop body of `bird_watch.main` propagates the error — the run terminates
instead of continuing with `previous <- current`. -/
theorem c8_counterexample :
    bird_loop_body 30 0 [[⟨0, 0, 0⟩]] [[⟨100, 100, 100⟩]] SaveOutcome.failed
      = Except.error RunError.writeFailure := by
  rfl

/-- C8 (amended): whenever detection fires and the SavePhoto write fails,
the iteration ends with the write error escaping the loop (only
`KeyboardInterrupt` is handled); the `previous <- current` bookkeeping is
not reached and the run does not continue. -/
theorem c8_write_failure_fatal (t size : ℕ) (prev cur : Frame)
    (h : size < count_pixels_static t (calculate_diffs prev cur)) :
    bird_loop_body t size prev cur SaveOutcome.failed
      = Except.error RunError.writeFailure := by
  simp [bird_loop_body, h]

/-- C8 witness: a concrete detecting cycle with a failing write. -/
theorem c8_write_failure_fatal_witness :
    0 < count_pixels_static 30 (calculate_diffs [[⟨0, 0, 0⟩]] [[⟨100, 100, 100⟩]])
      ∧ bird_loop_body 30 0 [[⟨0, 0, 0⟩]] [[⟨100, 100, 100⟩]] SaveOutcome.failed
          = Except.error RunError.writeFailure :=
  ⟨by decide, c8_write_failure_fatal 30 0 _ _ (by decide)⟩

/-- C9: when detection fires, the `critter-vid-ir.main` loop body records
for `dur` and then uses as the next `previous` frame the frame captured
at the start of the cycle (`cam s.clock`): `get_pic(TEMPFILE2)` re-reads
the temp file written before recording, and no new `camera.capture`
happens, so the resumed comparison uses the stale pre-recording frame,
not a frame acquired after recording ended. -/
theorem c9_stale_frame (cam : ℕ → Frame) (t size dur : ℕ) (s : VidState)
    (h : size < count_pixels_adaptive t (calculate_diffs s.prev (cam s.clock))) :
    (vid_loop_body cam t size dur s).prev = cam s.clock
      ∧ (vid_loop_body cam t size dur s).clock = s.clock + 1 + dur := by
  simp [vid_loop_body, h]

/-- C9 witness: a concrete detecting cycle (previous all black, camera
delivering an all-bright frame, 10-second recording). -/
theorem c9_stale_frame_witness :
    0 < count_pixels_adaptive 50
        (calculate_diffs (VidState.mk 0 [[⟨0, 0, 0⟩]] [[⟨0, 0, 0⟩]]).prev
          ((fun _ => [[⟨100, 100, 100⟩]]) (VidState.mk 0 [[⟨0, 0, 0⟩]] [[⟨0, 0, 0⟩]]).clock))
      ∧ ((vid_loop_body (fun _ => [[⟨100, 100, 100⟩]]) 50 0 10
            (VidState.mk 0 [[⟨0, 0, 0⟩]] [[⟨0, 0, 0⟩]])).prev
          = (fun _ => [[(⟨100, 100, 100⟩ : Px)]]) (VidState.mk 0 [[⟨0, 0, 0⟩]] [[⟨0, 0, 0⟩]]).clock
        ∧ (vid_loop_body (fun _ => [[⟨100, 100, 100⟩]]) 50 0 10
            (VidState.mk 0 [[⟨0, 0, 0⟩]] [[⟨0, 0, 0⟩]])).clock
          = (VidState.mk 0 [[⟨0, 0, 0⟩]] [[⟨0, 0, 0⟩]]).clock + 1 + 10) :=
  ⟨by decide, c9_stale_frame (fun _ => [[⟨100, 100, 100⟩]]) 50 0 10 _ (by decide)⟩

/-- C10: on an R-by-C DiffMap and positive threshold, every classify
variant returns a count of at most R*C, the number of pixels (the count
is a `ℕ`, so it is also at least 0). -/
theorem c10_count_bounds (d : Frame) (t R C : ℕ) (ht : 0 < t)
    (hR : d.length = R) (hC : ∀ row ∈ d, row.length = C) :
    count_pixels_static t d ≤ R * C
      ∧ count_pixels_adaptive t d ≤ R * C
      ∧ count_pixels_birds d.flatten ≤ R * C := by
  have hlen : d.flatten.length = R * C := by
    rw [flatten_length_of_rect d C hC, hR]
  have hone : ∀ l' : List ℕ, (l'.map (fun _ => (1 : ℕ))).sum = l'.length := by
    intro l'
    induction l' with
    | nil => rfl
    | cons x l ih => simp [ih, Nat.add_comm]
  have hsum : ∀ (l : List Px) (f : Px → ℕ),
      ((l.map f).map nsign).sum ≤ l.length := by
    intro l f
    calc ((l.map f).map nsign).sum
        ≤ ((l.map f).map (fun _ => 1)).sum :=
          List.sum_le_sum (fun x _ => nsign_le_one x)
      _ = (l.map f).length := hone (l.map f)
      _ = l.length := List.length_map l f
  refine ⟨?_, ?_, ?_⟩
  · rw [count_pixels_static_flat, ← hlen]
    have := hsum d.flatten (fun p => pxSum p / t)
    simpa [List.map_map, Function.comp] using this
  · unfold count_pixels_adaptive
    rw [← hlen]
    have := hsum (d.flatten.map (subPx (noiseVec d.flatten))) (fun p => pxSum p / t)
    calc ((d.flatten.map (subPx (noiseVec d.flatten))).map
            (fun p => nsign (pxSum p / t))).sum
        ≤ (d.flatten.map (subPx (noiseVec d.flatten))).length := by
          simpa [List.map_map, Function.comp] using this
      _ = d.flatten.length := List.length_map _ _
  · rw [← hlen]
    exact List.countP_le_length _

/-- C10 witness: a concrete 2-by-2 DiffMap at threshold 1. -/
theorem c10_count_bounds_witness :
    (0 < 1 ∧ ([[⟨1, 0, 0⟩, ⟨0, 0, 0⟩], [⟨5, 5, 5⟩, ⟨0, 1, 0⟩]] : Frame).length = 2
      ∧ ∀ row ∈ ([[⟨1, 0, 0⟩, ⟨0, 0, 0⟩], [⟨5, 5, 5⟩, ⟨0, 1, 0⟩]] : Frame), row.length = 2)
    ∧ (count_pixels_static 1 [[⟨1, 0, 0⟩, ⟨0, 0, 0⟩], [⟨5, 5, 5⟩, ⟨0, 1, 0⟩]] ≤ 2 * 2
      ∧ count_pixels_adaptive 1 [[⟨1, 0, 0⟩, ⟨0, 0, 0⟩], [⟨5, 5, 5⟩, ⟨0, 1, 0⟩]] ≤ 2 * 2
      ∧ count_pixels_birds ([[⟨1, 0, 0⟩, ⟨0, 0, 0⟩], [⟨5, 5, 5⟩, ⟨0, 1, 0⟩]] : Frame).flatten ≤ 2 * 2) :=
  ⟨⟨by decide, by decide, by decide⟩,
    c10_count_bounds _ 1 2 2 (by decide) (by decide) (by decide)⟩

end CritterCam

